import Mathlib

/-!
Shallow embedding of the PythiaTradingBot signal/backtest core:

* `src/strategies/statistical_pattern_strategy.py` — `StatisticalPatternStrategy`
  (`identify_market_regime`, `detect_anomalies`, `calculate_position_sizes`,
  `generate_signals`), and
* `src/backtesting/backtest_engine.py` — the trade-simulation loop of
  `run_backtest` and `calculate_metrics`.

Conventions of the embedding:

* Machine floats are modelled by an arbitrary `LinearOrderedField α`
  (instantiated at `ℚ` for concrete evaluation).  The places where
  numpy/pandas produce `inf`/`NaN` are modelled explicitly below: rolling
  windows, the z-score, the `1/volatility` factor, the empty-bucket behaviour
  of the regime classifier, the `0.0/0.0 = NaN` of the Kelly fraction at a
  degenerate stored state (`FVal`), and the `0.0/0.0 = NaN` drawdown entries
  together with pandas' NaN-skipping `min`.
* The external transcendental routines — `np.log`, the square root inside
  `.std()`, and `scipy.stats.norm.ppf` — cannot be embedded exactly; they are
  taken as parameters (`RealFns`).  `ppf q = none` encodes the value `+∞`
  (scipy returns `inf` at `q = 1`); theorems that rely on this scipy fact take
  it as an explicit hypothesis.
* A pandas rolling-window value that is `NaN` because the window is not yet
  filled is modelled as `Option.none`; elementwise comparisons against such a
  value are `False`, exactly as in pandas.
* `profit_factor` is `float('inf')`-able, so its field has type `Option α`
  with `none` standing for `+∞`.
-/

namespace Pythia

/-- Numeric routines supplied by external libraries: `np.log`, the square root
used by `.std()`, and `scipy.stats.norm.ppf`.  `ppf q = none` encodes `+∞`. -/
structure RealFns (α : Type) where
  log : α → α
  sqrt : α → α
  ppf : α → Option α

/-- Constructor parameters of `StatisticalPatternStrategy`
(statistical_pattern_strategy.py lines 21-33). -/
structure Params (α : Type) where
  lookback_period : ℕ
  regime_threshold : α
  volatility_window : ℕ
  num_states : ℕ
  confidence_level : α
  deriving DecidableEq

/-- `MarkovState` dataclass (statistical_pattern_strategy.py lines 9-13). -/
structure MarkovState (α : Type) where
  mean_return : α
  volatility : α
  probability : α
  deriving DecidableEq

/-- The input DataFrame: presence flags for the five required columns plus the
numeric `close` and `volume` columns (the only ones the strategy reads). -/
structure Frame (α : Type) where
  hasOpen : Bool
  hasHigh : Bool
  hasLow : Bool
  hasClose : Bool
  hasVolume : Bool
  closes : List α
  volumes : List α
  deriving DecidableEq

/-- `TradeResult` dataclass (backtest_engine.py lines 13-22).  The constant
`strategy_name`/`symbol` fields are omitted; `timestamp` is the bar index. -/
structure Trade (α : Type) where
  timestamp : ℕ
  type : String
  entry_price : α
  exit_price : α
  pnl : α
  status : String
  deriving DecidableEq

/-- The five metrics returned by `calculate_metrics`
(backtest_engine.py lines 79-111); `profit_factor = none` encodes `+∞`. -/
structure Metrics (α : Type) where
  total_return : α
  sharpe : α
  max_drawdown : Option α
  win_rate : α
  profit_factor : Option α
  deriving DecidableEq

/-- A float value that may be `NaN` or `±∞`, as produced by the Kelly
computation on degenerate states. -/
inductive FVal (α : Type) where
  | nan : FVal α
  | posInf : FVal α
  | negInf : FVal α
  | fin : α → FVal α
  deriving DecidableEq

variable {α : Type} [LinearOrderedField α]

/-- numpy `.mean()` of an array. -/
def meanL (l : List α) : α := l.sum / (l.length : α)

/-- numpy `.std() ^ 2`: population variance (`ddof = 0`). -/
def varP (l : List α) : α := meanL (l.map (fun x => (x - meanL l) ^ 2))

/-- pandas `.std() ^ 2`: sample variance (`ddof = 1`). -/
def varS (l : List α) : α := (l.map (fun x => (x - meanL l) ^ 2)).sum / ((l.length : α) - 1)

/-- Python slice `a[-k:]`.  For `k = 0` the slice `a[-0:] = a[0:]` is the whole
array. -/
def trailing (k : ℕ) (l : List α) : List α := if k = 0 then l else l.drop (l.length - k)

/-- pandas `series.rolling(window=w).mean()`: `NaN` (= `none`) until the
window is filled. -/
def rollingMean (w : ℕ) (xs : List α) : List (Option α) :=
  (List.range xs.length).map (fun i =>
    if i + 1 < w then none else some (meanL ((xs.take (i + 1)).drop (i + 1 - w))))

/-- pandas `series.rolling(window=w).std()` (`ddof = 1`), square root taken by
the external routine. -/
def rollingStd (fns : RealFns α) (w : ℕ) (xs : List α) : List (Option α) :=
  (List.range xs.length).map (fun i =>
    if i + 1 < w then none else some (fns.sqrt (varS ((xs.take (i + 1)).drop (i + 1 - w)))))

/-- `max`, written with an explicit comparison so that it evaluates by kernel
reduction at `ℚ`. -/
def max2 (a b : α) : α := if a ≤ b then b else a

/-- `min`, written with an explicit comparison so that it evaluates by kernel
reduction at `ℚ`. -/
def min2 (a b : α) : α := if a ≤ b then a else b

/-- `abs`, written with an explicit comparison so that it evaluates by kernel
reduction at `ℚ`. -/
def absV (x : α) : α := if x < 0 then -x else x

/-- `np.sign`. -/
def sgn (x : α) : α := if 0 < x then 1 else if x < 0 then -1 else 0

/-- `np.clip(x, -1, 1)`. -/
def clip (x : α) : α := if x < -1 then -1 else if 1 < x then 1 else x

/-- `np.log(data['close'] / data['close'].shift(1)).fillna(0)`: the first entry
is `NaN` filled with 0; entry `i ≥ 1` is `log(close_i / close_(i-1))`. -/
def logReturns (fns : RealFns α) (closes : List α) : List α :=
  match closes with
  | [] => []
  | _ :: cs => 0 :: List.zipWith (fun prev cur => fns.log (cur / prev)) closes cs

/-- Ordered insertion, used to model the sort inside pandas `quantile`. -/
def insertOrd (x : α) : List α → List α
  | [] => [x]
  | y :: ys => if x ≤ y then x :: y :: ys else y :: insertOrd x ys

def sortList (l : List α) : List α := l.foldr insertOrd []

/-- pandas `Series.quantile(q)` with linear interpolation, skipping `NaN`
entries; `NaN` (= `none`) on an all-`NaN`/empty series. -/
def quantile [FloorRing α] (q : α) (vals : List (Option α)) : Option α :=
  let vs := sortList (vals.filterMap id)
  if vs.isEmpty then none
  else
    let h : α := ((vs.length : α) - 1) * q
    let lo := vs.getD (Int.toNat ⌊h⌋) 0
    let hi := vs.getD (Int.toNat ⌈h⌉) 0
    some (lo + (hi - lo) * (h - (⌊h⌋ : α)))

/-- `x <= t` against a threshold that may be `+∞` (`norm.ppf(1) = inf`). -/
def leThr (x : α) (t : Option α) : Bool :=
  match t with
  | none => true
  | some v => decide (x ≤ v)

/-- One candidate state of the Gaussian-mixture loop
(statistical_pattern_strategy.py lines 53-61): the bucket of normalized
returns below the threshold, skipped when empty. -/
def bucketState (fns : RealFns α) (normalized : List α) (t : Option α) :
    Option (MarkovState α) :=
  let bucket := normalized.filter (fun x => leThr x t)
  if bucket.isEmpty then none
  else some ⟨meanL bucket, fns.sqrt (varP bucket),
    (bucket.length : α) / (normalized.length : α)⟩

/-- The `states` list built by the loop `for i in range(self.num_states)`. -/
def buildStates (fns : RealFns α) (num : ℕ) (normalized : List α) :
    List (MarkovState α) :=
  (List.range num).filterMap (fun i : ℕ =>
    bucketState fns normalized (fns.ppf (((i : α) + 1) / (num : α))))

/-- Python `max(states, key=lambda x: x.probability)`: the first element
attaining the maximum. -/
def pickMax : MarkovState α → List (MarkovState α) → MarkovState α
  | s, [] => s
  | s, t :: ts => pickMax (if t.probability > s.probability then t else s) ts

/-- The standardized trailing window
`(returns[-lookback:] - rolling_mean) / rolling_vol`. -/
def normalizedOf (fns : RealFns α) (L : ℕ) (returns : List α) : List α :=
  (trailing L returns).map
    (fun x => (x - meanL (trailing L returns)) / fns.sqrt (varP (trailing L returns)))

/-- `identify_market_regime` (statistical_pattern_strategy.py lines 37-67).
First component: the `self.current_state` after the call (written only on the
line-65 path); second component: the returned `MarkovState`.

When the rolling std is 0 every normalized value is NaN in numpy, every bucket
is therefore empty, and the zero state is returned without touching
`current_state`; the real std vanishes exactly when the (exactly computed)
population variance does, which is how that branch is expressed here. -/
def identify_market_regime (fns : RealFns α) (p : Params α)
    (st : Option (MarkovState α)) (returns : List α) :
    Option (MarkovState α) × MarkovState α :=
  if returns.length < p.lookback_period then (st, ⟨0, 0, 0⟩)
  else if varP (trailing p.lookback_period returns) = 0 then (st, ⟨0, 0, 0⟩)
  else
    match buildStates fns p.num_states (normalizedOf fns p.lookback_period returns) with
    | [] => (st, ⟨0, 0, 0⟩)
    | s :: ss => (some (pickMax s ss), pickMax s ss)

/-- The elementwise test `np.abs(z_scores) > threshold` where
`z = (r - rolling_mean) / rolling_std`:  a `NaN` window gives `False`; a zero
std gives `±inf` (hence `True`) unless the numerator is also zero (`NaN`,
hence `False`). -/
def zAnomaly (threshold r : α) (mo so : Option α) : Bool :=
  match mo, so with
  | some m, some s =>
    if s = 0 then decide (r - m ≠ 0)
    else decide (threshold < absV ((r - m) / s))
  | _, _ => false

/-- `detect_anomalies` (statistical_pattern_strategy.py lines 69-86). -/
def detect_anomalies (fns : RealFns α) (p : Params α) (f : Frame α) : List Bool :=
  if f.closes.length < p.lookback_period then List.replicate f.closes.length false
  else
    (List.range f.closes.length).map (fun i =>
      zAnomaly p.regime_threshold ((logReturns fns f.closes).getD i 0)
        ((rollingMean p.lookback_period (logReturns fns f.closes)).getD i none)
        ((rollingStd fns p.lookback_period (logReturns fns f.closes)).getD i none))

/-- The Kelly fraction `p - (1 - p) / abs(mean / vol)`
(statistical_pattern_strategy.py lines 100-105) with IEEE semantics;
`self.current_state` is truthy exactly when it is not `None`.
With `vol = 0`: `mean/vol` is `±inf` (so the quotient is 0 and kelly `= p`),
or `NaN` when `mean = 0` too (kelly `NaN`).  With `vol ≠ 0` and
`abs(mean/vol) = 0` (i.e. `mean = 0`): `(1-p)/0.0` is `NaN` when `p = 1`
(kelly `NaN`), `+inf` when `p < 1` (kelly `-inf`), `-inf` when `p > 1`
(kelly `+inf`).  In particular every state the classifier can store — which
has probability exactly 1 and mean return exactly 0 — produces kelly `NaN`. -/
def kellyFraction (st : Option (MarkovState α)) : FVal α :=
  match st with
  | none => FVal.fin (1 / 2)
  | some s =>
    if s.volatility = 0 then
      (if s.mean_return = 0 then FVal.nan else FVal.fin s.probability)
    else if absV (s.mean_return / s.volatility) = 0 then
      (if s.probability = 1 then FVal.nan
       else if s.probability < 1 then FVal.negInf else FVal.posInf)
    else FVal.fin (s.probability
      - (1 - s.probability) / absV (s.mean_return / s.volatility))

/-- `np.clip(sign(r) * kelly * c, -1, 1)` for a finite nonzero factor `c`:
a `NaN` kelly propagates to `NaN`; a `±inf` kelly gives `±inf` (clipped to
`±1`) unless `sign(r) * c = 0`, where `0 * inf = NaN`. -/
def posEntry (r : α) (kelly : FVal α) (c : α) : Option α :=
  match kelly with
  | FVal.nan => none
  | FVal.fin k => some (clip (sgn r * k * c))
  | FVal.posInf =>
    if sgn r * c = 0 then none
    else if 0 < sgn r * c then some 1 else some (-1)
  | FVal.negInf =>
    if sgn r * c = 0 then none
    else if 0 < sgn r * c then some (-1) else some 1

/-- `np.clip(sign(r) * kelly * (1/0.0), -1, 1)`: the factor is `+inf`, so the
product is `±inf` (clipped to `±1`) unless `sign(r) * kelly` is 0 or `NaN`. -/
def posEntryInfC (r : α) (kelly : FVal α) : Option α :=
  match kelly with
  | FVal.nan => none
  | FVal.fin k =>
    if sgn r * k = 0 then none
    else if 0 < sgn r * k then some 1 else some (-1)
  | FVal.posInf =>
    if sgn r = 0 then none
    else if 0 < sgn r then some 1 else some (-1)
  | FVal.negInf =>
    if sgn r = 0 then none
    else if 0 < sgn r then some (-1) else some 1

/-- One entry of the position-size array (statistical_pattern_strategy.py
lines 109-117), with the final `np.clip` applied elementwise.  On an anomalous
bar with an unfilled volatility window the IEEE product is `NaN` (= `none`);
with a zero volatility the factor `1/0.0` is `+inf`. -/
def positionSize (r : α) (kelly : FVal α) (anom : Bool) : Option α → Option α
  | none =>
    if anom then none else posEntry r kelly (1 / 2)
  | some v =>
    if anom then
      if v = 0 then posEntryInfC r kelly
      else posEntry r kelly (1 / v)
    else posEntry r kelly (1 / 2)

/-- `calculate_position_sizes` (statistical_pattern_strategy.py lines 88-117). -/
def calculate_position_sizes (fns : RealFns α) (p : Params α)
    (st : Option (MarkovState α)) (f : Frame α) (anomalies : List Bool) :
    List (Option α) :=
  (List.range f.closes.length).map (fun i =>
    positionSize ((logReturns fns f.closes).getD i 0) (kellyFraction st)
      (anomalies.getD i false)
      ((rollingStd fns p.volatility_window (logReturns fns f.closes)).getD i none))

def requiredColumns (f : Frame α) : Bool :=
  f.hasOpen && f.hasHigh && f.hasLow && f.hasClose && f.hasVolume

def missingColumnsMsg : String := "Missing required columns in data"

/-- The two mask assignments `signals[...] = 0` (statistical_pattern_strategy.py
lines 149-150): comparisons against a `NaN` moving average or quantile are
`False`. -/
def applyFilters (f : Frame α) (volMa : List (Option α)) (vol20 : List (Option α))
    (q : Option α) (signals : List (Option α)) : List (Option α) :=
  (List.range signals.length).map (fun i =>
    let volMask := match volMa.getD i none with
      | some m => decide (f.volumes.getD i 0 < m * (1 / 2))
      | none => false
    let quietMask := match vol20.getD i none, q with
      | some v, some qv => decide (v < qv)
      | _, _ => false
    if volMask || quietMask then some 0 else signals.getD i none)

/-- The `try` body of `generate_signals` (statistical_pattern_strategy.py lines
123-152): raises on missing columns, otherwise returns the updated
`current_state` together with the filtered sign series. -/
def generate_signals_body [FloorRing α] (fns : RealFns α) (p : Params α)
    (st : Option (MarkovState α)) (f : Frame α) :
    Except String (Option (MarkovState α) × List (Option α)) :=
  if ¬ requiredColumns f then Except.error missingColumnsMsg
  else
    let returns := logReturns fns f.closes
    let st2 := (identify_market_regime fns p st returns).1
    let positions := calculate_position_sizes fns p st2 f (detect_anomalies fns p f)
    let signals := positions.map (fun o => o.map sgn)
    let vol20 := rollingStd fns 20 returns
    Except.ok (st2, applyFilters f (rollingMean 20 f.volumes) vol20
      (quantile (1 / 10) vol20) signals)

/-- `generate_signals` (statistical_pattern_strategy.py lines 119-156): the
catch-all handler turns any raised error into a warning plus the all-zero
series `pd.Series(index=data.index, data=0)`. -/
def generate_signals [FloorRing α] (fns : RealFns α) (p : Params α)
    (st : Option (MarkovState α)) (f : Frame α) :
    Option (MarkovState α) × List (Option α) :=
  match generate_signals_body fns p st f with
  | Except.ok r => r
  | Except.error _ => (st, List.replicate f.closes.length (some 0))

/-- `self.current_state` after a fresh strategy instance has processed the
given frames in order. -/
def runHistory [FloorRing α] (fns : RealFns α) (p : Params α)
    (frames : List (Frame α)) : Option (MarkovState α) :=
  frames.foldl (fun st f => (generate_signals fns p st f).1) none

/-- `current_signal > 0` where the signal may be `NaN` (`NaN > 0` is `False`). -/
def sigPos : Option α → Bool
  | some v => decide (0 < v)
  | none => false

/-- The position update of the loop in `run_backtest` (backtest_engine.py lines
143-168); a `NaN` signal satisfies `current_signal != 0` and fails
`current_signal > 0`. -/
def nextPos (pos : ℤ) (s : Option α) : ℤ :=
  if pos = 0 ∧ s ≠ some 0 then (if sigPos s then 1 else -1)
  else if pos ≠ 0 ∧ (s = some 0 ∨ s = some (-(pos : α))) then 0
  else pos

/-- The `TradeResult` appended on close (backtest_engine.py lines 156-165). -/
def mkTrade (i : ℕ) (pos : ℤ) (entry c : α) : Trade α :=
  ⟨i, if 0 < pos then "LONG" else "SHORT", entry, c,
    (pos : α) * (c - entry) / entry, "CLOSED"⟩

/-- One iteration of the simulation loop over state
`(position, entry_price, trades)` and input `(i, signal, close)`. -/
def simStep (st : ℤ × α × List (Trade α)) (x : ℕ × Option α × α) :
    ℤ × α × List (Trade α) :=
  if st.1 = 0 ∧ x.2.1 ≠ some 0 then (if sigPos x.2.1 then 1 else -1, x.2.2, st.2.2)
  else if st.1 ≠ 0 ∧ (x.2.1 = some 0 ∨ x.2.1 = some (-(st.1 : α))) then
    (0, 0, st.2.2 ++ [mkTrade x.1 st.1 st.2.1 x.2.2])
  else st

/-- The iteration space `for i in range(1, len(data))` with the per-bar signal
and close. -/
def simSteps (signals : List (Option α)) (closes : List α) :
    List (ℕ × Option α × α) :=
  ((signals.zip closes).enum.map (fun x => (x.1, x.2.1, x.2.2))).drop 1

/-- The trade ledger produced by the simulation loop of `run_backtest`. -/
def simulate_trades (signals : List (Option α)) (closes : List α) : List (Trade α) :=
  ((simSteps signals closes).foldl simStep (0, 0, [])).2.2

/-- The sequence of position states visited by the simulation loop (initial
FLAT state included). -/
def posScan (pos : ℤ) : List (ℕ × Option α × α) → List ℤ
  | [] => [pos]
  | x :: xs => pos :: posScan (nextPos pos x.2.1) xs

def posTrace (signals : List (Option α)) (closes : List α) : List ℤ :=
  posScan 0 (simSteps signals closes)

/-- Number of completed open→close cycles along the position dynamics: the
transitions that enter FLAT from a non-FLAT state. -/
def closeCount (pos : ℤ) : List (ℕ × Option α × α) → ℕ
  | [] => 0
  | x :: xs =>
    (if pos ≠ 0 ∧ nextPos pos x.2.1 = 0 then 1 else 0) + closeCount (nextPos pos x.2.1) xs

def grossProfit (pnls : List α) : α := (pnls.filter (fun x => decide (0 < x))).sum

def grossLoss (pnls : List α) : α := absV (pnls.filter (fun x => decide (x < 0))).sum

/-- The drawdown sequence from a running state: `acc` is the previous
cumulative product, `m` the previous running maximum.  An entry is `NaN`
(= `none`) when the running maximum is 0: since `m` is the maximum of the
prefix of cumulative products, it is 0 only when some prefix product is 0,
which forces the current product to be 0 as well, and `0.0/0.0 = NaN`. -/
def ddFrom : List α → α → α → List (Option α)
  | [], _, _ => []
  | r :: rs, acc, m =>
    (if max2 m (acc * (1 + r)) = 0 then none
     else some (acc * (1 + r) / max2 m (acc * (1 + r)) - 1)) ::
      ddFrom rs (acc * (1 + r)) (max2 m (acc * (1 + r)))

/-- `cumulative_returns / rolling_max - 1` (backtest_engine.py lines 96-99):
the first running maximum is the first cumulative product itself, so the
first entry is `0.0` — or `NaN` when the first product `1 + r` is 0. -/
def drawdowns (pnls : List α) : List (Option α) :=
  match pnls with
  | [] => []
  | r :: rs =>
    (if (1 * (1 + r) : α) = 0 then none
     else some (1 * (1 + r) / (1 * (1 + r)) - 1)) ::
      ddFrom rs (1 * (1 + r)) (1 * (1 + r))

/-- `drawdowns.min()` (backtest_engine.py line 100): pandas `min` skips `NaN`
entries, and is itself `NaN` (= `none`) when every entry is `NaN`. -/
def maxDrawdown (pnls : List α) : Option α :=
  match (drawdowns pnls).filterMap id with
  | [] => none
  | d :: ds => some (ds.foldl min2 d)

/-- `calculate_metrics` (backtest_engine.py lines 79-111); an empty ledger
returns five zeros, in particular `profit_factor = 0.0`, not `inf`. -/
def calculate_metrics (fns : RealFns α) (trades : List (Trade α)) : Metrics α :=
  if trades.isEmpty then ⟨0, 0, some 0, 0, some 0⟩
  else
    ⟨(trades.map (fun t => t.pnl)).sum,
     (if 1 < trades.length then
        fns.sqrt 252 * (meanL (trades.map (fun t => t.pnl)) /
          fns.sqrt (varS (trades.map (fun t => t.pnl))))
      else 0),
     maxDrawdown (trades.map (fun t => t.pnl)),
     ((trades.filter (fun t => decide (0 < t.pnl))).length : α) / (trades.length : α),
     (if grossLoss (trades.map (fun t => t.pnl)) = 0 then none
      else some (grossProfit (trades.map (fun t => t.pnl)) /
        grossLoss (trades.map (fun t => t.pnl))))⟩

/-! ### Concrete instances used by witnesses and counterexamples

`fns0` is an admissible stand-in for the external float routines: its `log`
vanishes at 1 and is strictly monotone (all that the scenarios below use of
`np.log`), and its `ppf` is `+∞` at quantile 1, as `scipy.stats.norm.ppf`
is. -/

def fns0 : RealFns ℚ := ⟨fun x => x - 1, fun x => x, fun q => if 1 ≤ q then none else some 0⟩

/-- The default constructor parameters. -/
def P0 : Params ℚ := ⟨252, 3 / 2, 21, 3, 19 / 20⟩

/-- Parameters with `lookback_period = 2`, `num_states = 1`. -/
def P10 : Params ℚ := ⟨2, 3 / 2, 21, 1, 19 / 20⟩

/-- Two bars with rising close 100 → 110. -/
def frameUp : Frame ℚ := ⟨true, true, true, true, true, [100, 110], [1, 1]⟩

/-- Three bars 100, 100, 200: with `lookback_period = 2` the trailing returns
standardize to exactly `[-1, 1]` (here, with the stand-in `sqrt`, to
`[-2, 2]`), so classification succeeds and stores a probability-1,
mean-0 state. -/
def frame3 : Frame ℚ := ⟨true, true, true, true, true, [100, 100, 200], [1, 1, 1]⟩

/-- A single bar, too short for any lookback ≥ 2: classification returns
early and the stale `current_state` feeds the position sizer. -/
def frame1 : Frame ℚ := ⟨true, true, true, true, true, [100], [1]⟩

/-- Two bars whose DataFrame is missing the `volume` column. -/
def frameNoVolume : Frame ℚ := ⟨true, true, true, true, false, [100, 110], [1, 1]⟩

def tradeWin : Trade ℚ := ⟨1, "LONG", 100, 110, 1 / 10, "CLOSED"⟩

def tradeZero : Trade ℚ := ⟨1, "LONG", 100, 100, 0, "CLOSED"⟩

/-- A SHORT trade whose price tripled: pnl `= -1 * (300 - 100) / 100 = -2`. -/
def tradeLoss : Trade ℚ := ⟨2, "SHORT", 100, 300, -2, "CLOSED"⟩

/-- A SHORT trade whose price doubled: pnl `= -1 * (200 - 100) / 100 = -1`
exactly, wiping out the equity curve (cumulative product 0). -/
def tradeWipe : Trade ℚ := ⟨1, "SHORT", 100, 200, -1, "CLOSED"⟩

/-! ### Generic lemmas about the drawdown computation -/

theorem min2_le_left (a b : α) : min2 a b ≤ a := by
  unfold min2; split_ifs with h
  · exact le_refl a
  · exact le_of_not_le h

theorem le_min2 (a b c : α) (h1 : c ≤ a) (h2 : c ≤ b) : c ≤ min2 a b := by
  unfold min2; split_ifs
  · exact h1
  · exact h2

theorem le_max2_right (a b : α) : b ≤ max2 a b := by
  unfold max2; split_ifs with h
  · exact le_refl b
  · exact le_of_not_le h

theorem foldl_min_le (l : List α) : ∀ a : α, l.foldl min2 a ≤ a := by
  induction l with
  | nil => intro a; exact le_refl a
  | cons x xs ih => intro a; exact le_trans (ih (min2 a x)) (min2_le_left a x)

theorem le_foldl_min (l : List α) : ∀ a b : α, b ≤ a → (∀ x ∈ l, b ≤ x) → b ≤ l.foldl min2 a := by
  induction l with
  | nil => intro a b hb _; exact hb
  | cons x xs ih =>
    intro a b hb h
    exact ih (min2 a x) b (le_min2 _ _ _ hb (h x (List.mem_cons_self x xs)))
      (fun y hy => h y (List.mem_cons_of_mem x hy))

/-- After the cumulative product has hit 0 the running maximum stays 0, so
every remaining drawdown entry is NaN and none survives the NaN-skipping
`min`. -/
theorem ddFrom_zero_filterMap (rs : List α) :
    (ddFrom rs (0 : α) 0).filterMap id = [] := by
  induction rs with
  | nil => rfl
  | cons r rs ih =>
    have h0 : (0 : α) * (1 + r) = 0 := zero_mul _
    have hm0 : max2 (0 : α) 0 = 0 := by unfold max2; rw [if_pos (le_refl (0 : α))]
    have hdd : ddFrom (r :: rs) (0 : α) 0 = none :: ddFrom rs 0 0 := by
      simp only [ddFrom, h0, hm0]
      simp
    rw [hdd, List.filterMap_cons]
    simpa using ih

/-- With a positive cumulative product and running maximum and all pnl
factors positive, every drawdown entry is a number strictly above -1. -/
theorem ddFrom_filterMap_neg_one_lt (rs : List α) : ∀ acc m : α, 0 < acc → 0 < m →
    (∀ r ∈ rs, (-1 : α) < r) →
    ∀ x ∈ (ddFrom rs acc m).filterMap id, (-1 : α) < x := by
  induction rs with
  | nil => intro acc m _ _ _ x hx; simp [ddFrom] at hx
  | cons r rs ih =>
    intro acc m hacc hm hr x hx
    have hc : 0 < acc * (1 + r) :=
      mul_pos hacc (by have := hr r (List.mem_cons_self r rs); linarith)
    have hm2 : 0 < max2 m (acc * (1 + r)) := lt_of_lt_of_le hc (le_max2_right _ _)
    have hdd : ddFrom (r :: rs) acc m
        = some (acc * (1 + r) / max2 m (acc * (1 + r)) - 1)
          :: ddFrom rs (acc * (1 + r)) (max2 m (acc * (1 + r))) := by
      simp only [ddFrom]
      rw [if_neg (ne_of_gt hm2)]
    rw [hdd, List.filterMap_cons] at hx
    simp only [id_eq, List.mem_cons] at hx
    rcases hx with h | h
    · have hdiv : 0 < acc * (1 + r) / max2 m (acc * (1 + r)) := div_pos hc hm2
      rw [h]; linarith
    · exact ih _ _ hc hm2 (fun y hy => hr y (List.mem_cons_of_mem r hy)) x
        (by simpa using h)

/-! ### Lemmas about the simulation loop -/

theorem sim_trades_closed_aux (steps : List (ℕ × Option α × α)) :
    ∀ (pos : ℤ) (entry : α) (trades : List (Trade α)),
      (∀ t ∈ trades, t.status = "CLOSED") →
      ∀ t ∈ (steps.foldl simStep (pos, entry, trades)).2.2, t.status = "CLOSED" := by
  induction steps with
  | nil => intro pos entry trades h; simpa using h
  | cons x xs ih =>
    intro pos entry trades h
    rw [List.foldl_cons]
    by_cases h1 : pos = 0 ∧ x.2.1 ≠ some 0
    · have hstep : simStep (pos, entry, trades) x
          = ((if sigPos x.2.1 then 1 else -1 : ℤ), x.2.2, trades) := by
        simp only [simStep]; rw [if_pos h1]
      rw [hstep]; exact ih _ _ _ h
    · by_cases h2 : pos ≠ 0 ∧ (x.2.1 = some 0 ∨ x.2.1 = some (-(pos : α)))
      · have hstep : simStep (pos, entry, trades) x
            = (0, 0, trades ++ [mkTrade x.1 pos entry x.2.2]) := by
          simp only [simStep]; rw [if_neg h1, if_pos h2]
        rw [hstep]
        refine ih _ _ _ ?_
        intro t ht
        rcases List.mem_append.mp ht with h' | h'
        · exact h t h'
        · simp only [List.mem_singleton] at h'; rw [h']; rfl
      · have hstep : simStep (pos, entry, trades) x = (pos, entry, trades) := by
          simp only [simStep]; rw [if_neg h1, if_neg h2]
        rw [hstep]; exact ih _ _ _ h

theorem sim_trades_length_aux (steps : List (ℕ × Option α × α)) :
    ∀ (pos : ℤ) (entry : α) (trades : List (Trade α)),
      ((steps.foldl simStep (pos, entry, trades)).2.2).length
        = trades.length + closeCount pos steps := by
  induction steps with
  | nil => intro pos entry trades; simp [closeCount]
  | cons x xs ih =>
    intro pos entry trades
    rw [List.foldl_cons]
    simp only [closeCount]
    by_cases h1 : pos = 0 ∧ x.2.1 ≠ some 0
    · have hstep : simStep (pos, entry, trades) x
          = ((if sigPos x.2.1 then 1 else -1 : ℤ), x.2.2, trades) := by
        simp only [simStep]; rw [if_pos h1]
      have hnp : nextPos pos x.2.1 = (if sigPos x.2.1 then 1 else -1) := by
        simp only [nextPos]; rw [if_pos h1]
      have hcond : ¬(pos ≠ 0 ∧ nextPos pos x.2.1 = 0) := fun hc => hc.1 h1.1
      rw [hstep, ih, if_neg hcond, hnp]
      omega
    · by_cases h2 : pos ≠ 0 ∧ (x.2.1 = some 0 ∨ x.2.1 = some (-(pos : α)))
      · have hstep : simStep (pos, entry, trades) x
            = (0, 0, trades ++ [mkTrade x.1 pos entry x.2.2]) := by
          simp only [simStep]; rw [if_neg h1, if_pos h2]
        have hnp : nextPos pos x.2.1 = 0 := by
          simp only [nextPos]; rw [if_neg h1, if_pos h2]
        have hcond : pos ≠ 0 ∧ nextPos pos x.2.1 = 0 := ⟨h2.1, hnp⟩
        rw [hstep, ih, if_pos hcond, hnp]
        simp only [List.length_append, List.length_singleton]
        omega
      · have hstep : simStep (pos, entry, trades) x = (pos, entry, trades) := by
          simp only [simStep]; rw [if_neg h1, if_neg h2]
        have hnp : nextPos pos x.2.1 = pos := by
          simp only [nextPos]; rw [if_neg h1, if_neg h2]
        have hcond : ¬(pos ≠ 0 ∧ nextPos pos x.2.1 = 0) := by
          rw [hnp]; rintro ⟨hp, hq⟩; exact hp hq
        rw [hstep, ih, if_neg hcond, hnp]
        omega

theorem nextPos_small (pos : ℤ) (s : Option α) (h : pos = -1 ∨ pos = 0 ∨ pos = 1) :
    nextPos pos s = -1 ∨ nextPos pos s = 0 ∨ nextPos pos s = 1 := by
  simp only [nextPos]
  split_ifs with h1 h2 h3
  · omega
  · omega
  · omega
  · exact h

theorem posScan_mem_small (steps : List (ℕ × Option α × α)) :
    ∀ pos : ℤ, (pos = -1 ∨ pos = 0 ∨ pos = 1) →
      ∀ p ∈ posScan pos steps, p = -1 ∨ p = 0 ∨ p = 1 := by
  induction steps with
  | nil =>
    intro pos h p hp
    simp only [posScan, List.mem_singleton] at hp
    rw [hp]; exact h
  | cons x xs ih =>
    intro pos h p hp
    simp only [posScan, List.mem_cons] at hp
    rcases hp with rfl | hp
    · exact h
    · exact ih (nextPos pos x.2.1) (nextPos_small _ _ h) p hp

theorem posScan_head (pos : ℤ) (steps : List (ℕ × Option α × α)) :
    (posScan pos steps).head? = some pos := by
  cases steps <;> rfl

theorem posScan_chain (steps : List (ℕ × Option α × α)) :
    ∀ pos : ℤ, List.Chain' (fun p q : ℤ => p ≠ 0 → q = 0 ∨ q = p) (posScan pos steps) := by
  induction steps with
  | nil => intro pos; simp [posScan]
  | cons x xs ih =>
    intro pos
    have hrw : posScan pos (x :: xs) = pos :: posScan (nextPos pos x.2.1) xs := rfl
    rw [hrw, List.chain'_cons']
    refine ⟨?_, ih _⟩
    intro y hy
    rw [posScan_head] at hy
    simp only [Option.mem_def, Option.some_inj] at hy
    rw [← hy]
    intro hp
    have hcond : ¬(pos = 0 ∧ x.2.1 ≠ some 0) := fun hc => hp hc.1
    simp only [nextPos]
    rw [if_neg hcond]
    split_ifs with h2
    · exact Or.inl rfl
    · exact Or.inr rfl

/-! ### Small helper lemmas for clipping and signs -/

theorem clip_bounds (x : α) : -1 ≤ clip x ∧ clip x ≤ 1 := by
  unfold clip; split_ifs with h1 h2
  · constructor <;> norm_num
  · constructor <;> norm_num
  · exact ⟨le_of_not_lt h1, le_of_not_lt h2⟩

theorem posEntry_bounds (r : α) (k : FVal α) (c : α) (q : α)
    (h : posEntry r k c = some q) : -1 ≤ q ∧ q ≤ 1 := by
  cases k with
  | nan =>
    simp [posEntry] at h
  | fin k =>
    simp only [posEntry, Option.some_inj] at h
    rw [← h]
    exact clip_bounds _
  | posInf =>
    simp only [posEntry] at h
    revert h
    split_ifs <;> intro h
    · simp at h
    · simp only [Option.some_inj] at h
      rw [← h]; constructor <;> norm_num
    · simp only [Option.some_inj] at h
      rw [← h]; constructor <;> norm_num
  | negInf =>
    simp only [posEntry] at h
    revert h
    split_ifs <;> intro h
    · simp at h
    · simp only [Option.some_inj] at h
      rw [← h]; constructor <;> norm_num
    · simp only [Option.some_inj] at h
      rw [← h]; constructor <;> norm_num

theorem posEntryInfC_bounds (r : α) (k : FVal α) (q : α)
    (h : posEntryInfC r k = some q) : -1 ≤ q ∧ q ≤ 1 := by
  cases k with
  | nan =>
    simp [posEntryInfC] at h
  | fin k =>
    simp only [posEntryInfC] at h
    revert h
    split_ifs <;> intro h
    · simp at h
    · simp only [Option.some_inj] at h
      rw [← h]; constructor <;> norm_num
    · simp only [Option.some_inj] at h
      rw [← h]; constructor <;> norm_num
  | posInf =>
    simp only [posEntryInfC] at h
    revert h
    split_ifs <;> intro h
    · simp at h
    · simp only [Option.some_inj] at h
      rw [← h]; constructor <;> norm_num
    · simp only [Option.some_inj] at h
      rw [← h]; constructor <;> norm_num
  | negInf =>
    simp only [posEntryInfC] at h
    revert h
    split_ifs <;> intro h
    · simp at h
    · simp only [Option.some_inj] at h
      rw [← h]; constructor <;> norm_num
    · simp only [Option.some_inj] at h
      rw [← h]; constructor <;> norm_num

/-! ### Lemmas about the regime classifier -/

theorem buildStates_shape (fns : RealFns α) (num : ℕ) (normalized : List α)
    (st : MarkovState α) (h : st ∈ buildStates fns num normalized) :
    ∃ t, ¬((normalized.filter (fun x => leThr x t)).isEmpty = true) ∧
      st = ⟨meanL (normalized.filter (fun x => leThr x t)),
            fns.sqrt (varP (normalized.filter (fun x => leThr x t))),
            ((normalized.filter (fun x => leThr x t)).length : α)
              / (normalized.length : α)⟩ := by
  simp only [buildStates, List.mem_filterMap, List.mem_range] at h
  obtain ⟨i, -, hb⟩ := h
  refine ⟨fns.ppf (((i : α) + 1) / (num : α)), ?_, ?_⟩
  all_goals
    simp only [bucketState] at hb
    by_cases he : ((normalized.filter
        (fun x => leThr x (fns.ppf (((i : α) + 1) / (num : α))))).isEmpty = true)
  · rw [if_pos he] at hb; exact absurd hb (fun hc => Option.noConfusion hc)
  · exact he
  · rw [if_pos he] at hb; exact absurd hb (fun hc => Option.noConfusion hc)
  · rw [if_neg he] at hb
    exact (Option.some_inj.mp hb).symm

theorem buildStates_prob_le_one (fns : RealFns α) (num : ℕ) (normalized : List α)
    (hne : normalized ≠ []) :
    ∀ st ∈ buildStates fns num normalized, st.probability ≤ 1 := by
  intro st h
  obtain ⟨t, -, rfl⟩ := buildStates_shape fns num normalized st h
  have hpos : (0 : α) < (normalized.length : α) :=
    Nat.cast_pos.mpr (List.length_pos.mpr hne)
  show ((normalized.filter (fun x => leThr x t)).length : α)
      / (normalized.length : α) ≤ 1
  rw [div_le_one hpos]
  exact_mod_cast List.length_filter_le _ _

theorem mem_buildStates_full (fns : RealFns α) (num : ℕ) (normalized : List α)
    (hnum : 1 ≤ num) (hppf : fns.ppf 1 = none) (hne : normalized ≠ []) :
    ∃ st ∈ buildStates fns num normalized, st.probability = 1 := by
  have hnz : (num : α) ≠ 0 := Nat.cast_ne_zero.mpr (by omega)
  have hcast : (((num - 1 : ℕ) : α) + 1) = (num : α) := by
    have h := Nat.sub_add_cancel hnum
    exact_mod_cast congrArg (fun k : ℕ => (k : α)) h
  have hq : (((num - 1 : ℕ) : α) + 1) / (num : α) = 1 := by
    rw [hcast, div_self hnz]
  have hfil : normalized.filter
      (fun x => leThr x (fns.ppf ((((num - 1 : ℕ) : α) + 1) / (num : α)))) = normalized := by
    rw [hq, hppf]
    exact List.filter_eq_self.mpr (fun a _ => rfl)
  have hlnz : ((normalized.length : α)) ≠ 0 :=
    Nat.cast_ne_zero.mpr (fun hc => hne (List.length_eq_zero.mp hc))
  have hmem : bucketState fns normalized
      (fns.ppf ((((num - 1 : ℕ) : α) + 1) / (num : α)))
      = some ⟨meanL normalized, fns.sqrt (varP normalized),
          (normalized.length : α) / (normalized.length : α)⟩ := by
    simp only [bucketState]
    rw [hfil, if_neg (by simpa [List.isEmpty_iff] using hne)]
  have hrange : num - 1 ∈ List.range num := List.mem_range.mpr (by omega)
  refine ⟨⟨meanL normalized, fns.sqrt (varP normalized),
      (normalized.length : α) / (normalized.length : α)⟩, ?_, div_self hlnz⟩
  simp only [buildStates]
  exact (@List.mem_filterMap ℕ (MarkovState α)
    (fun i : ℕ => bucketState fns normalized (fns.ppf (((i : α) + 1) / (num : α))))
    (List.range num) _).mpr ⟨num - 1, hrange, hmem⟩

theorem pickMax_spec (ss : List (MarkovState α)) :
    ∀ s : MarkovState α, pickMax s ss ∈ s :: ss ∧
      ∀ x ∈ s :: ss, x.probability ≤ (pickMax s ss).probability := by
  induction ss with
  | nil =>
    intro s
    refine ⟨List.mem_singleton.mpr rfl, ?_⟩
    intro x hx
    rw [List.mem_singleton.mp hx]
    exact le_of_eq rfl
  | cons t ts ih =>
    intro s
    have hrw : pickMax s (t :: ts)
        = pickMax (if t.probability > s.probability then t else s) ts := rfl
    obtain ⟨hmem, hbound⟩ := ih (if t.probability > s.probability then t else s)
    constructor
    · rw [hrw]
      rcases List.mem_cons.mp hmem with h | h
      · rw [h]
        split_ifs
        · exact List.mem_cons_of_mem _ (List.mem_cons_self _ _)
        · exact List.mem_cons_self _ _
      · exact List.mem_cons_of_mem _ (List.mem_cons_of_mem _ h)
    · rw [hrw]
      intro x hx
      rcases List.mem_cons.mp hx with rfl | hx2
      · have hs : x.probability
            ≤ (if t.probability > x.probability then t else x).probability := by
          split_ifs with hgt
          · exact le_of_lt hgt
          · exact le_refl _
        exact le_trans hs (hbound _ (List.mem_cons_self _ _))
      · rcases List.mem_cons.mp hx2 with rfl | hx3
        · have hs : x.probability
              ≤ (if x.probability > s.probability then x else s).probability := by
            split_ifs with hgt
            · exact le_refl _
            · exact le_of_not_lt hgt
          exact le_trans hs (hbound _ (List.mem_cons_self _ _))
        · exact hbound x (List.mem_cons_of_mem _ hx3)

theorem varP_nil : varP ([] : List α) = 0 := by
  simp [varP, meanL]

theorem trailing_ne_nil_of_varP (L : ℕ) (returns : List α)
    (hvar : varP (trailing L returns) ≠ 0) : trailing L returns ≠ [] :=
  fun hc => hvar (by rw [hc]; exact varP_nil)

theorem normalizedOf_ne_nil (fns : RealFns α) (L : ℕ) (returns : List α)
    (htr : trailing L returns ≠ []) : normalizedOf fns L returns ≠ [] := by
  simp only [normalizedOf]
  exact fun hc => htr (List.map_eq_nil_iff.mp hc)

/-- When the current input has enough returns, nonzero trailing variance and
at least one state, `identify_market_regime` stores and returns the same
freshly computed state regardless of the incoming `current_state`. -/
theorem identify_set_path (fns : RealFns α) (p : Params α) (returns : List α)
    (hnum : 1 ≤ p.num_states) (hlen : p.lookback_period ≤ returns.length)
    (hvar : varP (trailing p.lookback_period returns) ≠ 0)
    (hppf : fns.ppf 1 = none) :
    ∃ best : MarkovState α,
      ∀ st, identify_market_regime fns p st returns = (some best, best) := by
  have h1 : ¬(returns.length < p.lookback_period) := not_lt.mpr hlen
  have htr := trailing_ne_nil_of_varP p.lookback_period returns hvar
  have hne := normalizedOf_ne_nil fns p.lookback_period returns htr
  obtain ⟨st1, hst1, -⟩ := mem_buildStates_full fns p.num_states _ hnum hppf hne
  rcases hbs : buildStates fns p.num_states
      (normalizedOf fns p.lookback_period returns) with _ | ⟨s, ss⟩
  · rw [hbs] at hst1; exact absurd hst1 (List.not_mem_nil _)
  · refine ⟨pickMax s ss, ?_⟩
    intro st
    simp only [identify_market_regime]
    rw [if_neg h1, if_neg hvar, hbs]

/-- `generate_signals` on a frame with all required columns, written out. -/
theorem generate_signals_ok [FloorRing α] (fns : RealFns α) (p : Params α)
    (st : Option (MarkovState α)) (f : Frame α) (hcol : requiredColumns f) :
    generate_signals fns p st f
      = ((identify_market_regime fns p st (logReturns fns f.closes)).1,
         applyFilters f (rollingMean 20 f.volumes)
           (rollingStd fns 20 (logReturns fns f.closes))
           (quantile (1 / 10) (rollingStd fns 20 (logReturns fns f.closes)))
           ((calculate_position_sizes fns p
               (identify_market_regime fns p st (logReturns fns f.closes)).1 f
               (detect_anomalies fns p f)).map (fun o => o.map sgn))) := by
  simp only [generate_signals, generate_signals_body]
  rw [if_neg (not_not_intro hcol)]

/-! ### Claim theorems -/

/-- Claim C1 (amended): for an input with fewer than `lookback_period` returns
the Regime Classifier does return the zero state `{0,0,0}` (leaving
`current_state` untouched); the Signal Generator, however, then sizes with the
default Kelly fraction 0.5 and its signal series is the filtered sign of the
returns, which need not be neutral. -/
theorem regime_zero_of_short_input (fns : RealFns α) (p : Params α)
    (st : Option (MarkovState α)) (returns : List α)
    (h : returns.length < p.lookback_period) :
    identify_market_regime fns p st returns = (st, ⟨0, 0, 0⟩) := by
  simp only [identify_market_regime]
  rw [if_pos h]

theorem regime_zero_of_short_input_witness :
    (([0] : List ℚ).length < P0.lookback_period)
    ∧ identify_market_regime fns0 P0 none [0] = (none, ⟨0, 0, 0⟩) :=
  ⟨by decide, regime_zero_of_short_input fns0 P0 none [0] (by decide)⟩

/-- Claim C1 counterexample: `frameUp` has 2 bars (so 2 < 252 returns with the
default parameters) and the classifier is in the zero-state branch, yet
`generate_signals` produces `[0, 1]` — index 1 is a long signal, not neutral
(`sign(log(110/100)) * 0.5 * 0.5 = 0.25`, whose sign is 1, and neither
admission filter fires on an unfilled 20-bar window). -/
theorem short_input_signal_not_neutral :
    (frameUp.closes.length < P0.lookback_period)
    ∧ (generate_signals fns0 P0 none frameUp).2 = [some 0, some 1]
    ∧ (some (1 : ℚ) ≠ some (0 : ℚ)) := by
  refine ⟨by decide, ?_, by norm_num⟩
  norm_num [generate_signals, generate_signals_body, requiredColumns, frameUp, P0, fns0,
    logReturns, identify_market_regime, detect_anomalies, calculate_position_sizes,
    positionSize, posEntry, kellyFraction, sgn, clip, rollingStd, rollingMean,
    applyFilters, quantile, sortList, List.range_succ, trailing, varP, varS, meanL,
    List.filterMap]

/-- Claim C2 (amended): for every NONEMPTY trade ledger whose gross loss is
exactly 0, `calculate_metrics` reports `profit_factor = +∞`; the zero-trade
ledger instead returns the all-zero metrics tuple, whose `profit_factor`
is 0, not `+∞`. -/
theorem profit_factor_inf_of_no_losses (fns : RealFns α) (trades : List (Trade α))
    (hne : trades ≠ [])
    (hgl : grossLoss (trades.map (fun t => t.pnl)) = 0) :
    (calculate_metrics fns trades).profit_factor = none := by
  cases trades with
  | nil => exact absurd rfl hne
  | cons t ts =>
    show (if grossLoss ((t :: ts).map (fun t => t.pnl)) = 0 then none
      else some _) = none
    rw [if_pos hgl]

theorem profit_factor_inf_of_no_losses_witness :
    ([tradeWin] ≠ ([] : List (Trade ℚ)))
    ∧ grossLoss ([tradeWin].map (fun t => t.pnl)) = 0
    ∧ (calculate_metrics fns0 [tradeWin]).profit_factor = none :=
  ⟨by simp, by norm_num [grossLoss, tradeWin, absV, List.filter_cons],
    profit_factor_inf_of_no_losses fns0 [tradeWin] (by simp)
      (by norm_num [grossLoss, tradeWin, absV, List.filter_cons])⟩

/-- Claim C2 counterexample: the empty ledger (exactly what the
250-identical-prices scenario produces) has gross loss 0, but
`calculate_metrics` returns `0.0, 0.0, 0.0, 0.0, 0.0` — `profit_factor` is 0,
not `+∞`. -/
theorem empty_ledger_profit_factor_zero :
    grossLoss (([] : List (Trade ℚ)).map (fun t => t.pnl)) = 0
    ∧ calculate_metrics fns0 ([] : List (Trade ℚ)) = ⟨0, 0, some 0, 0, some 0⟩
    ∧ (some (0 : ℚ) ≠ (none : Option ℚ)) :=
  ⟨by norm_num [grossLoss, absV], rfl, fun h => Option.noConfusion h⟩

/-- Claim C3: the `total_return` computed by `calculate_metrics` on the ledger
produced by the trade simulator equals the sum of `pnl` over the CLOSED trades
of that ledger (every produced trade is CLOSED, and the empty ledger gives
total_return 0 = empty sum). -/
theorem total_return_eq_closed_pnl_sum (fns : RealFns α)
    (signals : List (Option α)) (closes : List α) :
    (calculate_metrics fns (simulate_trades signals closes)).total_return
      = (((simulate_trades signals closes).filter
            (fun t => decide (t.status = "CLOSED"))).map (fun t => t.pnl)).sum := by
  have hcl : ∀ t ∈ simulate_trades signals closes, t.status = "CLOSED" :=
    sim_trades_closed_aux _ 0 0 [] (by intro t ht; simp at ht)
  have hfilter : (simulate_trades signals closes).filter
        (fun t => decide (t.status = "CLOSED"))
      = simulate_trades signals closes :=
    List.filter_eq_self.mpr (fun t ht => by simp [hcl t ht])
  rw [hfilter]
  generalize simulate_trades signals closes = L
  cases L with
  | nil => rfl
  | cons t ts => rfl

/-- Claim C4: in every run of the trade simulator the position trace stays in
{-1, 0, 1} (at most one open position), transitions strictly alternate
FLAT → (LONG|SHORT) → FLAT (an open position can only stay or return to FLAT,
never flip directly), every ledger entry is CLOSED, and the ledger holds
exactly one Trade per completed open→close cycle of the position dynamics. -/
theorem trade_simulator_invariants (signals : List (Option α)) (closes : List α) :
    (∀ t ∈ simulate_trades signals closes, t.status = "CLOSED")
    ∧ List.Chain' (fun p q : ℤ => p ≠ 0 → q = 0 ∨ q = p) (posTrace signals closes)
    ∧ (∀ p ∈ posTrace signals closes, p = -1 ∨ p = 0 ∨ p = 1)
    ∧ (simulate_trades signals closes).length = closeCount 0 (simSteps signals closes) := by
  refine ⟨sim_trades_closed_aux _ 0 0 [] (by intro t ht; simp at ht),
    posScan_chain _ 0, posScan_mem_small _ 0 (by omega), ?_⟩
  have h := sim_trades_length_aux (simSteps signals closes) 0 (0 : α) []
  simpa using h

/-- Claim C5: an open position (pos ≠ 0) is closed by a bar exactly when that
bar's signal is 0 or the negation of the current direction; on close the new
state is FLAT with entry price reset to 0 and no reopening on the same bar,
the appended trade being CLOSED with
pnl = direction * (exit - entry) / entry. -/
theorem open_position_close_rule (pos : ℤ) (entry : α) (trades : List (Trade α))
    (i : ℕ) (s : Option α) (c : α) (hpos : pos ≠ 0) :
    ((simStep (pos, entry, trades) (i, s, c)).1 = 0
        ↔ (s = some 0 ∨ s = some (-(pos : α))))
    ∧ ((s = some 0 ∨ s = some (-(pos : α))) →
        simStep (pos, entry, trades) (i, s, c)
          = (0, 0, trades ++ [mkTrade i pos entry c]))
    ∧ (mkTrade i pos entry c).pnl = (pos : α) * (c - entry) / entry := by
  have h1 : ¬(pos = 0 ∧ s ≠ some 0) := fun hc => hpos hc.1
  by_cases h2 : s = some 0 ∨ s = some (-(pos : α))
  · have hstep : simStep (pos, entry, trades) (i, s, c)
        = (0, 0, trades ++ [mkTrade i pos entry c]) := by
      simp only [simStep]; rw [if_neg h1, if_pos ⟨hpos, h2⟩]
    exact ⟨by rw [hstep]; simpa using h2, fun _ => hstep, rfl⟩
  · have hstep : simStep (pos, entry, trades) (i, s, c) = (pos, entry, trades) := by
      simp only [simStep]
      rw [if_neg h1, if_neg (fun hc => h2 hc.2)]
    refine ⟨?_, fun hc => absurd hc h2, rfl⟩
    rw [hstep]
    show pos = 0 ↔ (s = some 0 ∨ s = some (-(pos : α)))
    exact ⟨fun hc => absurd hc hpos, fun hc => absurd hc h2⟩

/-- Witness for C5, the scenario of the spec: a LONG position entered at 100,
closed by a neutral signal at 110, records a CLOSED trade with
pnl = (110 - 100)/100 = 0.10 exactly. -/
theorem open_position_close_rule_witness :
    ((1 : ℤ) ≠ 0)
    ∧ simStep ((1 : ℤ), (100 : ℚ), ([] : List (Trade ℚ))) (2, some 0, 110)
        = (0, 0, [⟨2, "LONG", 100, 110, 1 / 10, "CLOSED"⟩]) := by
  refine ⟨by decide, ?_⟩
  have h := (open_position_close_rule (1 : ℤ) (100 : ℚ) ([] : List (Trade ℚ))
    2 (some 0) 110 (by decide)).2.1 (Or.inl rfl)
  rw [h]
  norm_num [mkTrade]

/-- Claim C6 (amended): whenever `max_drawdown` is a number it is ≤ 0, and if
every trade's pnl exceeds -1 it is a number in [-1, 0]; but it is NaN when the
cumulative equity product hits exactly 0 (first trade pnl = -1, making every
drawdown entry 0.0/0.0), and a trade losing more than 100% of its entry
(possible for SHORT trades) pushes it below -1. -/
theorem max_drawdown_bounds (fns : RealFns α) (trades : List (Trade α)) :
    (∀ q : α, (calculate_metrics fns trades).max_drawdown = some q → q ≤ 0)
    ∧ ((∀ t ∈ trades, (-1 : α) < t.pnl) →
        ∃ q : α, (calculate_metrics fns trades).max_drawdown = some q
          ∧ -1 ≤ q ∧ q ≤ 0) := by
  cases trades with
  | nil =>
    constructor
    · intro q hq
      have h0 : (calculate_metrics fns ([] : List (Trade α))).max_drawdown
          = some 0 := rfl
      rw [h0] at hq
      obtain rfl := Option.some_inj.mp hq
      exact le_refl 0
    · intro _
      exact ⟨0, rfl, by norm_num, le_refl 0⟩
  | cons t ts =>
    have hmd : (calculate_metrics fns (t :: ts)).max_drawdown
        = maxDrawdown ((t :: ts).map (fun t => t.pnl)) := rfl
    by_cases hc : (1 * (1 + t.pnl) : α) = 0
    · have hdd : drawdowns ((t :: ts).map (fun t => t.pnl))
          = none :: ddFrom (ts.map (fun t => t.pnl)) 0 0 := by
        simp only [List.map_cons, drawdowns]
        rw [if_pos hc, hc]
      have hnone : maxDrawdown ((t :: ts).map (fun t => t.pnl)) = none := by
        simp only [maxDrawdown, hdd, List.filterMap_cons]
        rw [ddFrom_zero_filterMap]
        rfl
      constructor
      · intro q hq
        rw [hmd, hnone] at hq
        exact absurd hq (fun h => Option.noConfusion h)
      · intro hall
        have hpos : (0 : α) < 1 * (1 + t.pnl) := by
          have := hall t (List.mem_cons_self t ts)
          rw [one_mul]; linarith
        exact absurd hc (ne_of_gt hpos)
    · have hd0 : (1 * (1 + t.pnl) / (1 * (1 + t.pnl)) - 1 : α) = 0 := by
        rw [div_self hc]; ring
      have hdd : drawdowns ((t :: ts).map (fun t => t.pnl))
          = some 0 :: ddFrom (ts.map (fun t => t.pnl))
              (1 * (1 + t.pnl)) (1 * (1 + t.pnl)) := by
        simp only [List.map_cons, drawdowns]
        rw [if_neg hc, hd0]
      have hq : maxDrawdown ((t :: ts).map (fun t => t.pnl))
          = some (((ddFrom (ts.map (fun t => t.pnl))
              (1 * (1 + t.pnl)) (1 * (1 + t.pnl))).filterMap id).foldl min2 0) := by
        simp only [maxDrawdown, hdd, List.filterMap_cons, id_eq]
      constructor
      · intro q hq2
        rw [hmd, hq] at hq2
        obtain rfl := Option.some_inj.mp hq2
        exact foldl_min_le _ _
      · intro hall
        have hpos : (0 : α) < 1 * (1 + t.pnl) := by
          have := hall t (List.mem_cons_self t ts)
          rw [one_mul]; linarith
        have hr : ∀ r ∈ ts.map (fun t => t.pnl), (-1 : α) < r := by
          intro r hrr
          obtain ⟨u, hu, rfl⟩ := List.mem_map.mp hrr
          exact hall u (List.mem_cons_of_mem t hu)
        refine ⟨_, by rw [hmd, hq], ?_, foldl_min_le _ _⟩
        refine le_foldl_min _ _ _ (by norm_num) ?_
        intro x hx
        exact le_of_lt
          (ddFrom_filterMap_neg_one_lt _ _ _ hpos hpos hr x hx)

theorem max_drawdown_bounds_witness :
    (∀ t ∈ [tradeWin], (-1 : ℚ) < t.pnl)
    ∧ ∃ q : ℚ, (calculate_metrics fns0 [tradeWin]).max_drawdown = some q
        ∧ -1 ≤ q ∧ q ≤ 0 :=
  ⟨by norm_num [tradeWin],
    (max_drawdown_bounds fns0 [tradeWin]).2 (by norm_num [tradeWin])⟩

/-- Claim C6 counterexample: the ledger [pnl 0, pnl -2] (the second trade is a
SHORT whose price tripled) yields an equity curve [1, -1] with running maximum
[1, 1], so `max_drawdown = -2 < -1`; and the ledger [pnl -1] (a SHORT whose
price doubled) makes the equity product and its running maximum exactly 0, so
the drawdown series is all `0.0/0.0 = NaN` and `max_drawdown` is NaN —
satisfying neither bound. -/
theorem max_drawdown_below_neg_one :
    (calculate_metrics fns0 [tradeZero, tradeLoss]).max_drawdown = some (-2)
    ∧ ((-2 : ℚ) < -1)
    ∧ (calculate_metrics fns0 [tradeWipe]).max_drawdown = none
    ∧ (∀ q : ℚ, (none : Option ℚ) ≠ some q) := by
  refine ⟨?_, by norm_num, ?_, fun _ h => Option.noConfusion h⟩
  · norm_num [calculate_metrics, tradeZero, tradeLoss, maxDrawdown, drawdowns, ddFrom,
      max2, min2, List.filterMap_cons]
  · norm_num [calculate_metrics, tradeWipe, maxDrawdown, drawdowns, ddFrom,
      max2, min2, List.filterMap_cons]

/-- Claim C7 (amended): every DEFINED entry of the position-size series lies
in [-1, 1] (either by `np.clip` or as a clipped `±inf`); an entry is NaN
(undefined) when its bar is anomalous and the volatility window is not yet
filled. -/
theorem position_sizes_defined_bounded (fns : RealFns α) (p : Params α)
    (st : Option (MarkovState α)) (f : Frame α) (anomalies : List Bool)
    (x : Option α) (hx : x ∈ calculate_position_sizes fns p st f anomalies)
    (q : α) (hq : x = some q) : -1 ≤ q ∧ q ≤ 1 := by
  subst hq
  simp only [calculate_position_sizes, List.mem_map] at hx
  obtain ⟨i, -, hi⟩ := hx
  cases hvol : ((rollingStd fns p.volatility_window
      (logReturns fns f.closes)).getD i none) with
  | none =>
    rw [hvol] at hi
    simp only [positionSize] at hi
    by_cases hanom : (anomalies.getD i false) = true
    · rw [if_pos hanom] at hi
      exact absurd hi (fun h => Option.noConfusion h)
    · rw [if_neg hanom] at hi
      exact posEntry_bounds _ _ _ _ hi
  | some v =>
    rw [hvol] at hi
    simp only [positionSize] at hi
    by_cases hanom : (anomalies.getD i false) = true
    · rw [if_pos hanom] at hi
      by_cases hv : v = 0
      · rw [if_pos hv] at hi
        exact posEntryInfC_bounds _ _ _ hi
      · rw [if_neg hv] at hi
        exact posEntry_bounds _ _ _ _ hi
    · rw [if_neg hanom] at hi
      exact posEntry_bounds _ _ _ _ hi

theorem position_sizes_defined_bounded_witness :
    (some (0 : ℚ) ∈ calculate_position_sizes fns0 P0 none frameUp [false, true])
    ∧ ((-1 : ℚ) ≤ 0 ∧ (0 : ℚ) ≤ 1) :=
  ⟨by
    norm_num [calculate_position_sizes, positionSize, posEntry, kellyFraction, sgn, clip,
      rollingStd, logReturns, frameUp, P0, fns0, List.range_succ, varS, meanL],
    position_sizes_defined_bounded fns0 P0 none frameUp [false, true] (some 0)
      (by
        norm_num [calculate_position_sizes, positionSize, posEntry, kellyFraction, sgn, clip,
          rollingStd, logReturns, frameUp, P0, fns0, List.range_succ, varS, meanL])
      0 rfl⟩

/-- Claim C7 counterexample: with an anomaly flagged on bar 1 of a 2-bar frame
the 21-bar volatility window is unfilled, the IEEE product
`sign * kelly * (1/NaN)` is NaN, and the clipped series contains an entry that
is not a number in [-1, 1] at all. -/
theorem position_size_nan_on_anomaly :
    calculate_position_sizes fns0 P0 none frameUp [false, true] = [some 0, none]
    ∧ (∀ q : ℚ, (none : Option ℚ) ≠ some q) :=
  ⟨by
    norm_num [calculate_position_sizes, positionSize, posEntry, kellyFraction, sgn, clip,
      rollingStd, logReturns, frameUp, P0, fns0, List.range_succ, varS, meanL],
    fun _ h => Option.noConfusion h⟩

/-- Claim C8 (amended): a frame missing any of the five required columns makes
the `try` body of `generate_signals` raise `ValueError("Missing required
columns in data")`, but the function's own catch-all handler converts it into
a warning plus the all-neutral series: no error propagates to the caller, and
`current_state` is left unchanged. -/
theorem missing_columns_recovered [FloorRing α] (fns : RealFns α) (p : Params α)
    (st : Option (MarkovState α)) (f : Frame α) (h : ¬ requiredColumns f) :
    generate_signals_body fns p st f = Except.error missingColumnsMsg
    ∧ generate_signals fns p st f = (st, List.replicate f.closes.length (some 0)) := by
  have hb : generate_signals_body fns p st f = Except.error missingColumnsMsg := by
    simp only [generate_signals_body]
    rw [if_pos h]
  refine ⟨hb, ?_⟩
  simp only [generate_signals]
  rw [hb]

theorem missing_columns_recovered_witness :
    (¬ requiredColumns frameNoVolume)
    ∧ generate_signals_body fns0 P0 none frameNoVolume = Except.error missingColumnsMsg
    ∧ generate_signals fns0 P0 none frameNoVolume
        = (none, List.replicate frameNoVolume.closes.length (some 0)) := by
  refine ⟨by decide, ?_, ?_⟩
  · exact (missing_columns_recovered fns0 P0 none frameNoVolume (by decide)).1
  · exact (missing_columns_recovered fns0 P0 none frameNoVolume (by decide)).2

/-- Claim C8 counterexample: on a frame whose DataFrame lacks the `volume`
column the caller of `generate_signals` receives the default all-neutral
series `[0, 0]` — a normal return value, not a propagated hard error. -/
theorem missing_columns_no_propagation :
    (¬ requiredColumns frameNoVolume)
    ∧ (generate_signals fns0 P0 none frameNoVolume).2 = [some 0, some 0] := by decide

/-- Claim C9 (amended): any two invocations of `generate_signals` with the
same parameters produce identical signal series PROVIDED the current input
refreshes the regime state (at least `lookback_period` returns, nonzero
trailing variance, `num_states ≥ 1`, with the scipy fact `norm.ppf(1) = +∞`
as hypothesis): the freshly stored state then overwrites `current_state`
before the position sizer reads it.  Otherwise the residual `current_state`
from earlier invocations leaks into the Kelly computation and the output
depends on the invocation history. -/
theorem generate_signals_regime_refresh_independent [FloorRing α]
    (fns : RealFns α) (p : Params α) (st1 st2 : Option (MarkovState α))
    (f : Frame α) (hnum : 1 ≤ p.num_states)
    (hlen : p.lookback_period ≤ (logReturns fns f.closes).length)
    (hvar : varP (trailing p.lookback_period (logReturns fns f.closes)) ≠ 0)
    (hppf : fns.ppf 1 = none) :
    (generate_signals fns p st1 f).2 = (generate_signals fns p st2 f).2 := by
  by_cases hcol : requiredColumns f
  · rw [generate_signals_ok fns p st1 f hcol, generate_signals_ok fns p st2 f hcol]
    obtain ⟨best, hset⟩ :=
      identify_set_path fns p (logReturns fns f.closes) hnum hlen hvar hppf
    simp only [hset st1, hset st2]
  · simp only [generate_signals, generate_signals_body]
    rw [if_pos hcol, if_pos hcol]

theorem generate_signals_regime_refresh_independent_witness :
    (1 ≤ P10.num_states)
    ∧ P10.lookback_period ≤ (logReturns fns0 frame3.closes).length
    ∧ varP (trailing P10.lookback_period (logReturns fns0 frame3.closes)) ≠ 0
    ∧ fns0.ppf 1 = none
    ∧ (generate_signals fns0 P10 none frame3).2
        = (generate_signals fns0 P10 (some ⟨0, 4, 1⟩) frame3).2 :=
  ⟨by decide,
    by norm_num [logReturns, frame3, fns0, P10],
    by norm_num [logReturns, frame3, fns0, P10, trailing, varP, meanL],
    by norm_num [fns0],
    generate_signals_regime_refresh_independent fns0 P10 none (some ⟨0, 4, 1⟩) frame3
      (by decide)
      (by norm_num [logReturns, frame3, fns0, P10])
      (by norm_num [logReturns, frame3, fns0, P10, trailing, varP, meanL])
      (by norm_num [fns0])⟩

/-- Claim C9 counterexample: processing `frame3` first stores the state
{mean_return 0, volatility 4, probability 1} (every stored state has
probability exactly 1 and mean return exactly 0), so the next invocation on
the 1-bar `frame1` — too short to refresh the regime — computes
`kelly = 1 - (1-1)/abs(0/4) = 1 - 0.0/0.0 = NaN` and emits the all-NaN
series `[NaN]`, while a fresh instance (default kelly 0.5) emits `[0]`:
the same input frame, two histories, two different signal series. -/
theorem generate_signals_history_dependent :
    (generate_signals fns0 P10 (runHistory fns0 P10 [frame3]) frame1).2 = [none]
    ∧ (generate_signals fns0 P10 (runHistory fns0 P10 []) frame1).2 = [some 0]
    ∧ ((none : Option ℚ) ≠ some 0) := by
  have hlog3 : logReturns fns0 frame3.closes = [0, 0, 1] := by
    norm_num [logReturns, frame3, fns0]
  have hnorm : normalizedOf fns0 2 ([0, 0, 1] : List ℚ) = [-2, 2] := by
    norm_num [normalizedOf, trailing, varP, meanL, fns0]
  have hbs : buildStates fns0 1 ([-2, 2] : List ℚ) = [⟨0, 4, 1⟩] := by
    norm_num [buildStates, bucketState, leThr, fns0, varP, meanL,
      List.range_succ, List.filterMap]
  have hbs2 : buildStates fns0 P10.num_states
      (normalizedOf fns0 P10.lookback_period ([0, 0, 1] : List ℚ))
      = [⟨0, 4, 1⟩] := by
    show buildStates fns0 1 (normalizedOf fns0 2 [0, 0, 1]) = [⟨0, 4, 1⟩]
    rw [hnorm, hbs]
  have hid3 : identify_market_regime fns0 P10 none ([0, 0, 1] : List ℚ)
      = (some ⟨0, 4, 1⟩, ⟨0, 4, 1⟩) := by
    have hlen : ¬(([0, 0, 1] : List ℚ).length < P10.lookback_period) := by decide
    have hvar : ¬(varP (trailing P10.lookback_period ([0, 0, 1] : List ℚ)) = 0) := by
      norm_num [P10, trailing, varP, meanL]
    simp only [identify_market_regime]
    rw [if_neg hlen, if_neg hvar, hbs2]
    rfl
  have hstate : runHistory fns0 P10 [frame3] = some ⟨0, 4, 1⟩ := by
    show (generate_signals fns0 P10 none frame3).1 = some ⟨0, 4, 1⟩
    rw [generate_signals_ok fns0 P10 none frame3 (by decide)]
    show (identify_market_regime fns0 P10 none (logReturns fns0 frame3.closes)).1
        = some ⟨0, 4, 1⟩
    rw [hlog3, hid3]
  have hrh : runHistory fns0 P10 ([] : List (Frame ℚ)) = none := rfl
  have hid1 : ∀ st : Option (MarkovState ℚ),
      identify_market_regime fns0 P10 st ([0] : List ℚ) = (st, ⟨0, 0, 0⟩) := by
    intro st
    simp only [identify_market_regime]
    rw [if_pos (by decide : ([0] : List ℚ).length < P10.lookback_period)]
  have hlog1 : logReturns fns0 frame1.closes = [0] := rfl
  have hanom1 : detect_anomalies fns0 P10 frame1 = [false] := rfl
  have hstd20 : rollingStd fns0 20 ([0] : List ℚ) = [none] := rfl
  have hrm : rollingMean 20 frame1.volumes = [none] := rfl
  have hq : ∀ q : ℚ, quantile q [none] = none := fun _ => rfl
  have hk1 : kellyFraction (some (⟨0, 4, 1⟩ : MarkovState ℚ)) = FVal.nan := by
    norm_num [kellyFraction, absV]
  have hcps1 : calculate_position_sizes fns0 P10 (some ⟨0, 4, 1⟩) frame1 [false]
      = [none] := by
    have h0 : calculate_position_sizes fns0 P10 (some ⟨0, 4, 1⟩) frame1 [false]
        = [positionSize (0 : ℚ) (kellyFraction (some ⟨0, 4, 1⟩)) false none] := rfl
    rw [h0, hk1]
    rfl
  have hpe : posEntry (0 : ℚ) (FVal.fin (1 / 2)) (1 / 2) = some 0 := by
    norm_num [posEntry, sgn, clip]
  have hcps2 : calculate_position_sizes fns0 P10 none frame1 [false]
      = [some 0] := by
    have h0 : calculate_position_sizes fns0 P10 none frame1 [false]
        = [posEntry (0 : ℚ) (FVal.fin (1 / 2)) (1 / 2)] := rfl
    rw [h0, hpe]
  have hsgn0 : sgn (0 : ℚ) = 0 := by norm_num [sgn]
  have happ1 : applyFilters frame1 [none] [none] none [(none : Option ℚ)]
      = [none] := rfl
  have happ2 : applyFilters frame1 [none] [none] none [(some (0 : ℚ))]
      = [some 0] := rfl
  refine ⟨?_, ?_, fun h => Option.noConfusion h⟩
  · rw [hstate, generate_signals_ok fns0 P10 (some ⟨0, 4, 1⟩) frame1 (by decide)]
    simp [hlog1, hanom1, hrm, hid1, hstd20, hq, hcps1, happ1]
  · rw [hrh, generate_signals_ok fns0 P10 none frame1 (by decide)]
    simp [hlog1, hanom1, hrm, hid1, hstd20, hq, hcps2, hsgn0, happ2]

/-- Claim C10: whenever at least `lookback_period` returns are available, the
trailing window has nonzero variance and `num_states ≥ 1`, the regime returned
by `identify_market_regime` has probability exactly 1: the bucket for
`i = num_states` uses the threshold `norm.ppf(1) = +∞` and so contains every
standardized return, and no bucket can beat probability 1. -/
theorem regime_probability_one (fns : RealFns α) (p : Params α)
    (st : Option (MarkovState α)) (returns : List α)
    (hnum : 1 ≤ p.num_states) (hlen : p.lookback_period ≤ returns.length)
    (hvar : varP (trailing p.lookback_period returns) ≠ 0)
    (hppf : fns.ppf 1 = none) :
    (identify_market_regime fns p st returns).2.probability = 1 := by
  have h1 : ¬(returns.length < p.lookback_period) := not_lt.mpr hlen
  have htr := trailing_ne_nil_of_varP p.lookback_period returns hvar
  have hne := normalizedOf_ne_nil fns p.lookback_period returns htr
  obtain ⟨st1, hst1, hp1⟩ := mem_buildStates_full fns p.num_states _ hnum hppf hne
  rcases hbs : buildStates fns p.num_states
      (normalizedOf fns p.lookback_period returns) with _ | ⟨s, ss⟩
  · rw [hbs] at hst1; exact absurd hst1 (List.not_mem_nil _)
  · have hid : identify_market_regime fns p st returns
        = (some (pickMax s ss), pickMax s ss) := by
      simp only [identify_market_regime]
      rw [if_neg h1, if_neg hvar, hbs]
    rw [hid]
    obtain ⟨hmem, hbound⟩ := pickMax_spec ss s
    have hle := buildStates_prob_le_one fns p.num_states _ hne
      (pickMax s ss) (by rw [hbs]; exact hmem)
    have hge : 1 ≤ (pickMax s ss).probability := by
      have hb := hbound st1 (by rw [← hbs]; exact hst1)
      rw [hp1] at hb; exact hb
    exact le_antisymm hle hge

theorem regime_probability_one_witness :
    (1 ≤ P10.num_states)
    ∧ P10.lookback_period ≤ ([0, 1] : List ℚ).length
    ∧ varP (trailing P10.lookback_period ([0, 1] : List ℚ)) ≠ 0
    ∧ fns0.ppf 1 = none
    ∧ (identify_market_regime fns0 P10 none [0, 1]).2.probability = 1 :=
  ⟨by decide, by decide,
    by norm_num [varP, meanL, trailing, P10],
    by norm_num [fns0],
    regime_probability_one fns0 P10 none [0, 1] (by decide) (by decide)
      (by norm_num [varP, meanL, trailing, P10]) (by norm_num [fns0])⟩

end Pythia
